import Mathlib

/-
Verification of the Monad static-site compositor (vite-plugin-monad).

Shallow embedding of the template composition pipeline and audit engine of
`packages/vite-plugin-monad/src/index.ts`:

  * JS values (the "JSON-superset" data flowing through contexts, collections
    and inclusion data objects) are embedded as the inductive type `Value`.
    Numbers are embedded as `Int` (every number occurring in the verified
    claims is integral).
  * Template text is embedded post-lexing: a mustache-bearing text is a
    `List Piece` (literal runs and `\x7b\x7btoken\x7d\x7d` occurrences), a page/fragment
    template is a `List Seg` (text runs and `<% ref, data %>` inclusion tags),
    and a collection-bearing page is a `List LoopSeg` (text runs and
    `monad:loop` blocks).  This mirrors exactly what the source's regexes
    recognise; the regex scans themselves are the lexing step.
  * Filesystem access is embedded as a finite fragment store (absolute path
    to fragment template), `JSON5.parse` as an abstract `String → Option Value`
    parameter, and the HTML parser (node-html-parser, an external library)
    as the record `HtmlDoc` of the exact queries `auditHtml` performs.
-/

/-- JS runtime values as manipulated by the plugin (JSON5 data, contexts,
collection items).  `undefVal` is JS `undefined`, the result of a missed
property lookup. -/
inductive Value where
  | null
  | undefVal
  | bool (b : Bool)
  | num (n : Int)
  | str (s : String)
  | arr (xs : List Value)
  | obj (fields : List (String × Value))

/-- Nullish test, JS `cur == null` (matches both `null` and `undefined`). -/
def Value.isNullish : Value → Bool
  | .null => true
  | .undefVal => true
  | _ => false

/-- First binding of a key in an object's field list (JS objects hold at most
one binding per key; lists built by this development keep that invariant). -/
def lookupField (fs : List (String × Value)) (k : String) : Option Value :=
  (fs.find? (fun kv => kv.1 == k)).map (fun kv => kv.2)

/-- JS property access `cur[p]`: a missing key, or access on a non-object,
yields `undefined`.  (Exotic accesses such as `"abc".length` are not modelled;
no claim exercises them.) -/
def jsIndex : Value → String → Value
  | .obj fs, k =>
    match lookupField fs k with
    | some v => v
    | none => .undefVal
  | _, _ => .undefVal

/-- JS whitespace membership (`\s`), restricted to the whitespace characters
occurring in page sources. -/
def isJsWs (c : Char) : Bool := c == ' ' || c == '\t' || c == '\n' || c == '\r'

/-- Whitespace trimming of a character list, both ends. -/
def trimChars (cs : List Char) : List Char :=
  ((cs.dropWhile isJsWs).reverse.dropWhile isJsWs).reverse

/-- JS `s.trim()`. -/
def jsTrim (s : String) : String := String.mk (trimChars s.data)

/-- JS `s.startsWith(pre)`. -/
def strStartsWith (s pre : String) : Bool := pre.data.isPrefixOf s.data

/-- JS `s.endsWith(sfx)`. -/
def strEndsWith (s sfx : String) : Bool := sfx.data.isSuffixOf s.data

/-- Splitting on a single separator character, JS `s.split(sep)` for the
one-character separators the plugin uses. -/
def splitOnChar (sep : Char) : List Char → List (List Char)
  | [] => [[]]
  | c :: cs =>
    if c == sep then [] :: splitOnChar sep cs
    else
      match splitOnChar sep cs with
      | [] => [[c]]
      | g :: gs => (c :: g) :: gs

/-- JS `s.split(sep)[0]`, the prefix before the first separator. -/
def beforeChar (sep : Char) (h : String) : String :=
  String.mk (h.data.takeWhile (fun c => c != sep))

/-- Dotted-path splitting, `dotPath.split(".").filter(Boolean)` from `getByPath`. -/
def splitParts (dotPath : String) : List String :=
  ((splitOnChar '.' dotPath.data).map String.mk).filter (fun s => !s.isEmpty)

/-- The loop body of `getByPath` (src/index.ts:279-287): walk the parts,
returning `""` as soon as the cursor is nullish, and `cur ?? ""` at the end. -/
def getByPathGo : Value → List String → Value
  | cur, [] => if cur.isNullish then .str "" else cur
  | cur, p :: ps => if cur.isNullish then .str "" else getByPathGo (jsIndex cur p) ps

/-- Dotted lookup `getByPath(obj, dotPath)` (src/index.ts:279-287). -/
def getByPath (v : Value) (dotPath : String) : Value :=
  getByPathGo v (splitParts dotPath)

/-- Specification-side predicate: strict sequential property lookup of a
dotted path.  `none` means some step of the lookup misses (the path does not
exist in the context).  Used only to state claims about `getByPath`. -/
def lookupPath : List String → Value → Option Value
  | [], v => some v
  | p :: ps, Value.obj fs =>
    match lookupField fs p with
    | some v => lookupPath ps v
    | none => none
  | _ :: _, _ => none

mutual

/-- JS `String(v)` coercion, as applied by `interpolateMustache` to the value
substituted for a token. -/
def toJSString : Value → String
  | .null => "null"
  | .undefVal => "undefined"
  | .bool true => "true"
  | .bool false => "false"
  | .num n => toString n
  | .str s => s
  | .obj _ => "[object Object]"
  | .arr xs => String.intercalate "," (arrElemStrings xs)

/-- Element stringification of `Array.prototype.toString`: `null` and
`undefined` elements render as the empty string. -/
def arrElemStrings : List Value → List String
  | [] => []
  | .null :: vs => "" :: arrElemStrings vs
  | .undefVal :: vs => "" :: arrElemStrings vs
  | v :: vs => toJSString v :: arrElemStrings vs

end

/-- Escape for `JSON.stringify` string output (quote, backslash and newline;
other control characters do not occur in the verified claims). -/
def jsonEscapeChar (c : Char) : String :=
  if c = '"' then "\\\""
  else if c = '\\' then "\\\\"
  else if c = '\n' then "\\n"
  else String.singleton c

/-- A JSON string literal. -/
def jsonQuote (s : String) : String :=
  "\"" ++ String.join (s.data.map jsonEscapeChar) ++ "\""

mutual

/-- Serialisation `JSON.stringify(v)`, used by `expandCollectionLoops` for a
bare item-variable token.  (`undefVal` cannot occur in JSON5-parsed data.) -/
def jsonStringify : Value → String
  | .null => "null"
  | .undefVal => "null"
  | .bool true => "true"
  | .bool false => "false"
  | .num n => toString n
  | .str s => jsonQuote s
  | .arr xs => "[" ++ String.intercalate "," (jsonArrElems xs) ++ "]"
  | .obj fs => "\x7b" ++ String.intercalate "," (jsonObjFields fs) ++ "\x7d"

/-- Array elements (`undefined` serialises as `null` inside arrays). -/
def jsonArrElems : List Value → List String
  | [] => []
  | .undefVal :: vs => "null" :: jsonArrElems vs
  | v :: vs => jsonStringify v :: jsonArrElems vs

/-- Object fields (`undefined`-valued fields are omitted). -/
def jsonObjFields : List (String × Value) → List String
  | [] => []
  | (_, .undefVal) :: fs => jsonObjFields fs
  | (k, v) :: fs => (jsonQuote k ++ ":" ++ jsonStringify v) :: jsonObjFields fs

end

/-- One lexed piece of mustache-bearing text: a literal run, or one mustache
token (with `expr` already trimmed, exactly as the token regex in
`interpolateMustache` captures it). -/
inductive Piece where
  | lit (s : String)
  | tok (expr : String)
deriving DecidableEq

/-- Token substitution `interpolateMustache(template, ctx)`
(src/index.ts:289-294): replace every token by `String(getByPath(ctx, expr))`,
concatenating the pieces back. -/
def interpolatePieces (ctx : Value) : List Piece → String
  | [] => ""
  | Piece.lit s :: rest => s ++ interpolatePieces ctx rest
  | Piece.tok e :: rest => toJSString (getByPath ctx e) ++ interpolatePieces ctx rest

/-- One lexed segment of a page or fragment template: a run of
mustache-bearing text, or one fragment-inclusion tag (the source's
`<% ref %>` / `<% ref, data %>` regex match, `ref` trimmed and `dataText`
the optional raw data-object text). -/
inductive Seg where
  | text (ps : List Piece)
  | incl (ref : String) (dataText : Option String)
deriving DecidableEq

/-- A template is the lexed sequence of its segments. -/
abbrev Tpl := List Seg

/-- The fragment store: absolute resolved fragment path to lexed fragment
text.  This embeds the filesystem as seen through `fs.existsSync`/`readText`
(spec design note: "a capability interface: read fragment by name"). -/
abbrev FragStore := List (String × Tpl)

/-- Fragment lookup; `none` embeds `!fs.existsSync(abs)`. -/
def lookupFrag (store : FragStore) (abs : String) : Option Tpl :=
  (store.find? (fun kv => kv.1 == abs)).map (fun kv => kv.2)

/-- Inert marker emitted for an unresolvable fragment reference
(src/index.ts:329). -/
def missingMarker (ref : String) : String :=
  "<!-- monad:missing-partial " ++ ref ++ " -->"

/-- Inert marker emitted at a recursive inclusion site (src/index.ts:332). -/
def cycleMarker (ref : String) : String :=
  "<!-- monad:cycle " ++ ref ++ " -->"

/-- Fields of an object value; spreading a nullish value contributes no
fields (JS `...(x ?? \x7b\x7d)`). -/
def objFields : Value → List (String × Value)
  | .obj fs => fs
  | _ => []

/-- JS object-spread assignment of one key: an existing binding is updated in
place (keeping its position), a new key is appended. -/
def updateOrAppend (fs : List (String × Value)) (k : String) (v : Value) :
    List (String × Value) :=
  if fs.any (fun kv => kv.1 == k) then
    fs.map (fun kv => if kv.1 == k then (k, v) else kv)
  else fs ++ [(k, v)]

/-- JS object spread: all bindings of `news` written over `fs`. -/
def spreadInto (fs news : List (String × Value)) : List (String × Value) :=
  news.foldl (fun acc kv => updateOrAppend acc kv.1 kv.2) fs

/-- Data-layer fields of a context, `ctx?.data ?? \x7b\x7d`. -/
def ctxDataFields (ctx : Value) : List (String × Value) :=
  objFields (jsIndex ctx "data")

/-- The per-inclusion context (src/index.ts:347-350):
`\x7b ...ctx, data: \x7b ...(ctx?.data ?? \x7b\x7d), ...(dataObj ?? \x7b\x7d) \x7d \x7d`. -/
def nextCtxOf (ctx dataObj : Value) : Value :=
  Value.obj (spreadInto (objFields ctx)
    [("data", Value.obj (spreadInto (ctxDataFields ctx) (objFields dataObj)))])

/-- The inclusion-site data object (src/index.ts:335-345): absent or blank
text gives an empty object, and a JSON5 parse failure also degrades to an
empty object.  `parse` abstracts `JSON5.parse` (external library). -/
def parseDataText (parse : String → Option Value) : Option String → Value
  | none => Value.obj []
  | some txt =>
    if jsTrim txt == "" then Value.obj []
    else
      match parse txt with
      | some v => v
      | none => Value.obj []

/-- Termination measure for fragment expansion: the number of store paths not
yet on the inclusion stack. -/
def remainingFrags (store : FragStore) (stack : List String) : Nat :=
  ((store.map Prod.fst).toFinset \ stack.toFinset).card

/-- The recursive inclusion-expansion pass of `expandIncludes`
(src/index.ts:309-361), without the trailing interpolation pass.  Each
segment of the template is processed in order; an inclusion whose resolved
absolute path is missing from the store emits the missing marker, one whose
path is already on the current inclusion chain's stack emits the cycle
marker, and otherwise the fragment's own template is expanded under the
derived context with the path pushed onto the stack, then interpolated
against that context.  (The source applies `interpolateMustache` once inside
the recursive call and once at the call site; the second application is the
identity here because the rendered fragment is a literal.  `resolve`
abstracts `path.resolve(resolvePartial(partialsDir, ref))`.) -/
def expandSegs (store : FragStore) (resolve : String → String)
    (parse : String → Option Value) : Value → List String → Tpl → List Piece
  | _, _, [] => []
  | ctx, stack, Seg.text ps :: rest =>
    ps ++ expandSegs store resolve parse ctx stack rest
  | ctx, stack, Seg.incl ref dt :: rest =>
    match h : lookupFrag store (resolve ref) with
    | none => Piece.lit (missingMarker ref) :: expandSegs store resolve parse ctx stack rest
    | some frag =>
      if habs : resolve ref ∈ stack then
        Piece.lit (cycleMarker ref) :: expandSegs store resolve parse ctx stack rest
      else
        Piece.lit (interpolatePieces (nextCtxOf ctx (parseDataText parse dt))
            (expandSegs store resolve parse (nextCtxOf ctx (parseDataText parse dt))
              (stack ++ [resolve ref]) frag))
          :: expandSegs store resolve parse ctx stack rest
termination_by ctx stack tpl => (remainingFrags store stack, tpl.length)
decreasing_by
  all_goals simp_wf
  all_goals first
    | exact Prod.Lex.right _ (by simp)
    | · apply Prod.Lex.left
        simp only [lookupFrag] at h
        rcases Option.map_eq_some'.mp h with ⟨kv, hfind, hkv⟩
        have h1 : kv.1 = resolve ref := by
          have h2 := List.find?_some hfind
          simpa using h2
        have h2 : kv ∈ store := List.mem_of_find?_eq_some hfind
        have hmem : resolve ref ∈ store.map Prod.fst :=
          h1 ▸ List.mem_map_of_mem Prod.fst h2
        unfold remainingFrags
        have hsub : ((store.map Prod.fst).toFinset \ (stack ++ [resolve ref]).toFinset)
            ⊆ ((store.map Prod.fst).toFinset \ stack.toFinset) := by
          apply Finset.sdiff_subset_sdiff (Finset.Subset.refl _)
          intro x hx
          simp only [List.mem_toFinset] at hx ⊢
          exact List.mem_append_left _ hx
        apply Finset.card_lt_card
        refine (Finset.ssubset_iff_of_subset hsub).mpr ⟨resolve ref, ?_, ?_⟩
        · exact Finset.mem_sdiff.mpr
            ⟨List.mem_toFinset.mpr hmem, fun hc => habs (List.mem_toFinset.mp hc)⟩
        · intro hc
          exact (Finset.mem_sdiff.mp hc).2
            (List.mem_toFinset.mpr (List.mem_append_right _ (by simp)))

/-- Full `expandIncludes` (src/index.ts:309-369): the expansion pass followed
by the final interpolation pass over any remaining tokens, which the caller
can defer via `skipFinal` (the source's `skipFinalInterpolation`, used so
collection loops run before interpolation). -/
def expandIncludes (store : FragStore) (resolve : String → String)
    (parse : String → Option Value) (ctx : Value) (stack : List String)
    (skipFinal : Bool) (tpl : Tpl) : List Piece :=
  if skipFinal then expandSegs store resolve parse ctx stack tpl
  else [Piece.lit (interpolatePieces ctx (expandSegs store resolve parse ctx stack tpl))]

/-- Quote test for the reference-unquoting regex. -/
def isQuoteChar (c : Char) : Bool := c == '"' || c == '\''

/-- Quote stripping of `resolvePartial` (the regex removes one leading and
one trailing quote character). -/
def stripQuotes1 (s : String) : String :=
  let c1 :=
    match s.data with
    | c :: rest => if isQuoteChar c then rest else s.data
    | [] => []
  let c2 :=
    match c1.getLast? with
    | some c => if isQuoteChar c then c1.dropLast else c1
    | none => c1
  String.mk c2

/-- Fragment-reference resolution `resolvePartial(partialsDir, partialRef)`
(src/index.ts:269-277): trim and unquote the reference, add an `.html`
extension when absent, prefix the base name with an underscore, and join
under the fragment root.  `path.resolve` is the identity here because the
fragment root is already absolute in `renderAll`. -/
def resolveFragment (fragmentsDir ref0 : String) : String :=
  let ref := stripQuotes1 (jsTrim ref0)
  let ext := if strEndsWith ref ".html" then "" else ".html"
  let comps := (splitOnChar '/' ref.data).map String.mk
  let base := comps.getLastD ref
  let dir := if comps.length ≤ 1 then "." else String.intercalate "/" comps.dropLast
  let underscored := if strStartsWith base "_" then base else "_" ++ base
  (if dir == "." then fragmentsDir else fragmentsDir ++ "/" ++ dir) ++ "/" ++ underscored ++ ext

/-- Case-insensitive anchored suffix strip, the effect of
`s.replace(/SFX$/i, "")` for a literal suffix: when the lower-cased tail of
`cs` equals `sfx`, return `cs` without that tail. -/
def stripSuffixCI (cs sfx : List Char) : Option (List Char) :=
  if sfx.length ≤ cs.length ∧ (cs.drop (cs.length - sfx.length)).map Char.toLower = sfx then
    some (cs.take (cs.length - sfx.length))
  else none

/-- Extension removal `posix.replace(/\.(html|md)$/i, "")` (src/index.ts:229). -/
def stripPageExt (cs : List Char) : List Char :=
  match stripSuffixCI cs ".html".data with
  | some r => r
  | none =>
    match stripSuffixCI cs ".md".data with
    | some r => r
    | none => cs

/-- Trailing-`index` removal `noExt.replace(/index$/i, "")` (src/index.ts:231). -/
def stripIndexEnd (cs : List Char) : List Char :=
  match stripSuffixCI cs "index".data with
  | some r => r
  | none => cs

/-- Slash-run collapsing `replace(/\/+/g, "/")` (src/index.ts:231). -/
def collapseSlashes : List Char → List Char
  | [] => []
  | [c] => [c]
  | c1 :: c2 :: rest =>
    if c1 = '/' ∧ c2 = '/' then collapseSlashes (c2 :: rest)
    else c1 :: collapseSlashes (c2 :: rest)

/-- JS `route.endsWith("/")`. -/
def endsWithSlash (cs : List Char) : Bool := cs.getLast? == some '/'

/-- Character-level body of `routeFromRelPath` (src/index.ts:226-235). -/
def routeFromRelChars (rel : List Char) (cleanUrls trailingSlash : Bool) : List Char :=
  let noExt := stripPageExt rel
  if noExt = "index".data then "/".data
  else
    let route := '/' :: collapseSlashes (stripIndexEnd noExt)
    let cleaned :=
      if endsWithSlash route then route
      else route ++ (if trailingSlash then "/".data else [])
    if !cleanUrls then '/' :: (noExt ++ ".html".data) else cleaned

/-- Route mapping `routeFromRelPath(relFilePath, cleanUrls, trailingSlash)`
(src/index.ts:226-235).  `toPosix` is the identity on a POSIX host
(`path.sep` is `/`), so the relative path is consumed as is. -/
def routeFromRelPath (relFilePath : String) (cleanUrls trailingSlash : Bool) : String :=
  String.mk (routeFromRelChars relFilePath.data cleanUrls trailingSlash)

/-- A rendered document as `auditHtml` (src/index.ts:1028-1094) observes it
through its regex tests and `node-html-parser` queries (the parser is an
external library; each field is the result of the corresponding query):
`hasTitleText` is the title regex (a title tag with non-empty text),
`hasMetaDescription` the meta-description regex, `h1Count` the number of
`<h1` occurrences, `imgAlts` the `alt` attribute of each `img` element in
document order, `anchorHrefs` the `href` of each `a[href]` element in
document order, and the last two fields the favicon/canonical regexes. -/
structure HtmlDoc where
  hasTitleText : Bool
  hasMetaDescription : Bool
  h1Count : Nat
  imgAlts : List (Option String)
  anchorHrefs : List String
  hasFaviconLink : Bool
  hasCanonicalLink : Bool

/-- Missing-alt test `alt == null || alt.trim() === ""` (src/index.ts:1040). -/
def altMissing : Option String → Bool
  | none => true
  | some a => jsTrim a == ""

/-- Internal-link test `href.startsWith("/") && !href.startsWith("//")`
(src/index.ts:1067). -/
def isInternalHref (href : String) : Bool :=
  strStartsWith href "/" && !(strStartsWith href "//")

/-- Query/fragment stripping `href.split("?")[0].split("#")[0]`
(src/index.ts:1069). -/
def cleanHref (href : String) : String := beforeChar '#' (beforeChar '?' href)

/-- Trailing-slash normalisation (src/index.ts:1077-1078). -/
def withSlash (r : String) : String := if strEndsWith r "/" then r else r ++ "/"

/-- Route-existence test of the link checker (src/index.ts:1072-1080): direct
match or trailing-slash-insensitive match against the route table. -/
def routeExistsIn (routes : List String) (clean : String) : Bool :=
  routes.any (fun r => r == clean || withSlash r == withSlash clean)

/-- Broken-link warning text (src/index.ts:1083). -/
def brokenLinkMsg (href : String) : String := "Broken internal link: " ++ href

/-- The audit pass `auditHtml(html, route, opts)` (src/index.ts:1028-1094),
producing its warnings in source order.  The on-disk image-size branch is the
`opts.distDirAbs = undefined` case (that branch reads the output filesystem,
which is outside this embedding; no verified claim concerns it), and
`allRoutes = none` embeds an absent `opts.allRoutes`. -/
def auditHtml (doc : HtmlDoc) (allRoutes : Option (List String)) : List String :=
  (if doc.hasTitleText then [] else ["Missing <title>"]) ++
  (if doc.hasMetaDescription then [] else ["Missing meta description"]) ++
  (if doc.h1Count == 0 then ["Missing <h1>"] else []) ++
  (if doc.h1Count > 1 then ["Multiple <h1> (" ++ (toString doc.h1Count ++ ")")] else []) ++
  (doc.imgAlts.filterMap fun alt =>
    if altMissing alt then some "Image missing alt attribute" else none) ++
  (match allRoutes with
   | none => []
   | some routes =>
     doc.anchorHrefs.filterMap fun href =>
       if isInternalHref href && !routeExistsIn routes (cleanHref href) then
         some (brokenLinkMsg href)
       else none) ++
  (if doc.hasFaviconLink then []
   else ["No favicon <link rel=\"icon\"> found (consider adding)"]) ++
  (if doc.hasCanonicalLink then [] else ["Missing canonical link tag"])

/-- One lexed token of a loop-block body, relative to the block's item
variable: a literal run (anything the block's regexes leave untouched,
including tokens of other variables), an `ITEMVAR.field` token, a bare
`ITEMVAR` token, or the 0-based and 1-based index tokens. -/
inductive LoopTok where
  | lit (s : String)
  | field (f : String)
  | bare
  | idx
  | idx1
deriving DecidableEq

/-- Item-field substitution `item[field] ?? ""` (src/index.ts:1313-1315),
coerced to text by the string replacement. -/
def loopFieldValue (item : Value) (f : String) : String :=
  match jsIndex item f with
  | .null => ""
  | .undefVal => ""
  | v => toJSString v

/-- One instantiation of a loop body for `item` at 0-based index `i`
(src/index.ts:1310-1323). -/
def instantiateLoopBody (body : List LoopTok) (item : Value) (i : Nat) : String :=
  match body with
  | [] => ""
  | LoopTok.lit s :: rest => s ++ instantiateLoopBody rest item i
  | LoopTok.field f :: rest => loopFieldValue item f ++ instantiateLoopBody rest item i
  | LoopTok.bare :: rest => jsonStringify item ++ instantiateLoopBody rest item i
  | LoopTok.idx :: rest => toString i ++ instantiateLoopBody rest item i
  | LoopTok.idx1 :: rest => toString (i + 1) ++ instantiateLoopBody rest item i

/-- Concatenation of the instantiations of all items, in collection order,
starting at index `i` (the `collection.forEach` accumulation,
src/index.ts:1309-1324). -/
def instantiateAll (body : List LoopTok) : Nat → List Value → String
  | _, [] => ""
  | i, item :: rest => instantiateLoopBody body item i ++ instantiateAll body (i + 1) rest

/-- One lexed segment of a collection-bearing text: a literal run or one
loop block (`monad:loop ITEMVAR in PATH` ... `monad:endloop` regex match). -/
inductive LoopSeg where
  | text (s : String)
  | loopBlock (pathExpr : String) (body : List LoopTok)
deriving DecidableEq

/-- Inert diagnostic left for an unresolvable collection path
(src/index.ts:1305). -/
def collectionNotFoundMsg (p : String) : String :=
  "<!-- Collection " ++ p ++ " not found -->"

/-- Loop expansion `expandCollectionLoops(html, collections)`
(src/index.ts:1292-1330): each loop block whose path resolves (via
`getByPath`) to an array is replaced by the concatenated instantiations in
the collection's own order; any other block is replaced by the inert
diagnostic and processing continues. -/
def expandCollectionLoops (collections : Value) : List LoopSeg → String
  | [] => ""
  | LoopSeg.text s :: rest => s ++ expandCollectionLoops collections rest
  | LoopSeg.loopBlock p body :: rest =>
    (match getByPath collections p with
     | Value.arr items => instantiateAll body 0 items
     | _ => collectionNotFoundMsg p) ++ expandCollectionLoops collections rest

/-- Case-insensitive literal prefix strip (the frontmatter regex carries the
`i` flag). -/
def dropPrefixCI : List Char → List Char → Option (List Char)
  | [], cs => some cs
  | _ :: _, [] => none
  | p :: ps, c :: cs => if p.toLower == c.toLower then dropPrefixCI ps cs else none

/-- Split at the first occurrence of `pat`: `some (before, after)` with the
occurrence removed, `none` when `pat` does not occur. -/
def splitFirst (pat : List Char) : List Char → Option (List Char × List Char)
  | [] => if pat.isEmpty then some ([], []) else none
  | c :: cs =>
    if pat.isPrefixOf (c :: cs) then some ([], (c :: cs).drop pat.length)
    else
      match splitFirst pat cs with
      | some (b, a) => some (c :: b, a)
      | none => none

/-- Match attempt of the frontmatter regex at the head of `cs`: after
`<!--`, optional whitespace, `monad` (case-insensitively), optional
whitespace, the lazily-captured block content runs to the first `-->`. -/
def tryMonadAt (cs : List Char) : Option (List Char × List Char) :=
  match dropPrefixCI "<!--".data cs with
  | none => none
  | some r1 =>
    match dropPrefixCI "monad".data (r1.dropWhile isJsWs) with
    | none => none
    | some r3 => splitFirst "-->".data (r3.dropWhile isJsWs)

/-- Leftmost match of the frontmatter regex `<!--\s*monad\s*([\s\S]*?)-->`
(src/index.ts:254): `some (before, blockContent, after)` decomposes the text
around the first matching comment block. -/
def findMonadBlock : List Char → Option (List Char × List Char × List Char)
  | [] => none
  | c :: cs =>
    match tryMonadAt (c :: cs) with
    | some (inner, after) => some ([], inner, after)
    | none =>
      match findMonadBlock cs with
      | some (b, i, a) => some (c :: b, i, a)
      | none => none

/-- Page frontmatter (the `PageMeta` keys recognised by the plugin; the
`og` sub-object is omitted, no verified claim touches it). -/
structure PageMeta where
  title : Option String := none
  description : Option String := none
  layout : Option String := none
  head : Option String := none
deriving DecidableEq

/-- The empty metadata value (`\x7b\x7d as PageMeta`). -/
def emptyPageMeta : PageMeta := {}

/-- Frontmatter extraction `tryParsePageMeta(raw)` (src/index.ts:252-267).
`parse` abstracts `JSON5.parse` on the block content (external library);
`none` embeds a parse throw.  With no block the whole raw text is the body;
with a block the body is the raw text with the first block removed and
trimmed, whether or not the block content parses. -/
def tryParsePageMeta (parse : String → Option PageMeta) (raw : String) :
    PageMeta × String :=
  match findMonadBlock raw.data with
  | none => (emptyPageMeta, raw)
  | some (before, inner, after) =>
    let body := jsTrim (String.mk (before ++ after))
    match parse (jsTrim (String.mk inner)) with
    | some m => (m, body)
    | none => (emptyPageMeta, body)

/-- The three-way audit policy. -/
inductive AuditMode where
  | off
  | warn
  | fail
deriving DecidableEq

/-- The audit/accessibility options consumed by the end of `closeBundle`
(defaults: both enabled, both `warn`, src/index.ts:1510-1513). -/
structure CloseOpts where
  auditEnabled : Bool
  auditMode : AuditMode
  accessibilityEnabled : Bool
  accessibilityMode : AuditMode

/-- Observable actions of the end of `closeBundle`: report writes (via
`writeFileEnsured`, filesystem at the boundary) and the build abort
(`throw new Error`). -/
inductive BuildAction where
  | writeReportJson
  | writeReportHtml
  | abortBuild (msg : String)
deriving DecidableEq

/-- Abort test. -/
def BuildAction.isAbort : BuildAction → Bool
  | .abortBuild _ => true
  | _ => false

/-- JS `w.includes(pat)` (substring containment). -/
def containsSub (w pat : String) : Bool := (splitFirst pat.data w.data).isSome

/-- The substring allow-list by which the accessibility fail filter
re-derives warning categories (src/index.ts:2207-2228). -/
def accessibilitySubstrings : List String :=
  ["h1", "ARIA", "aria-", "role=", "Alt text", "alt attribute", "tabindex",
   "keyboard", "focus", "screen reader", "landmark", "skip link",
   "contrast ratio", "Button", "Form input", "table", "List item",
   "Interactive", "heading hierarchy", "multiple main"]

/-- Accessibility classification of one warning text (src/index.ts:2207-2228). -/
def isAccessibilityWarning (w : String) : Bool :=
  accessibilitySubstrings.any (fun p => containsSub w p)

/-- Aggregated warning count over all render results (each result's warning
list, src/index.ts:2194). -/
def totalWarnings (rs : List (List String)) : Nat := (rs.map List.length).sum

/-- Aggregated accessibility-classified warning count (src/index.ts:2206-2230). -/
def accWarningCount (rs : List (List String)) : Nat :=
  (rs.map (fun ws => (ws.filter isAccessibilityWarning).length)).sum

/-- Audit abort message (src/index.ts:2196). -/
def auditFailMsg (n : Nat) : String :=
  "Monad audit failed: " ++ (toString n ++ " warnings (see dist/__monad/report.html)")

/-- Accessibility abort message (src/index.ts:2233). -/
def accessibilityFailMsg (n : Nat) : String :=
  "Monad accessibility audit failed: " ++
    (toString n ++ " accessibility warnings (see dist/__monad/report.html)")

/-- The accessibility fail handling (src/index.ts:2201-2236): abort iff
accessibility auditing is enabled, its mode is `fail`, and some warning
classifies as accessibility-related. -/
def accessibilityAbortActions (o : CloseOpts) (rs : List (List String)) :
    List BuildAction :=
  if o.accessibilityEnabled = true ∧ o.accessibilityMode = AuditMode.fail ∧
      0 < accWarningCount rs then
    [BuildAction.abortBuild (accessibilityFailMsg (accWarningCount rs))]
  else []

/-- The audit tail of `closeBundle` (src/index.ts:2179-2236) as its ordered
action trace: when the audit is enabled both reports are written, then in
`fail` mode a nonzero total warning count aborts (a throw, so nothing later
runs); otherwise control reaches the accessibility fail handling.  When the
audit is disabled no report is written and only the accessibility fail
handling runs. -/
def closeBundleTail (o : CloseOpts) (rs : List (List String)) : List BuildAction :=
  if o.auditEnabled = true then
    [BuildAction.writeReportJson, BuildAction.writeReportHtml] ++
      (if o.auditMode = AuditMode.fail ∧ 0 < totalWarnings rs then
        [BuildAction.abortBuild (auditFailMsg (totalWarnings rs))]
      else accessibilityAbortActions o rs)
  else accessibilityAbortActions o rs

/-- A JSON5 parser stub that always fails; no inclusion in the concrete
stores below carries a data object, so it is never consulted. -/
def parse0 : String → Option Value := fun _ => none

/-- The page context of the concrete inclusion examples. -/
def ctx0 : Value := Value.obj []

/-- Reference resolution against the absolute fragment root of the examples. -/
def resolveP : String → String := resolveFragment "/proj/fragments"

/-- A store whose single fragment `a` includes itself (cycle length 1). -/
def storeSelf : FragStore :=
  [("/proj/fragments/_a.html",
    [Seg.text [Piece.lit "X"], Seg.incl "a" none, Seg.text [Piece.lit "Y"]])]

/-- A store with a 2-cycle: fragment `a` includes `b`, `b` includes `a`. -/
def storeAB : FragStore :=
  [("/proj/fragments/_a.html", [Seg.incl "b" none]),
   ("/proj/fragments/_b.html", [Seg.incl "a" none])]

/-- A store with one fragment `f` whose text is a single token that no
context of the examples can resolve. -/
def storeF : FragStore :=
  [("/proj/fragments/_f.html", [Seg.text [Piece.tok "data.x"]])]

/-- The collection store of the spec's loop example:
`posts.items = [ \x7b title: "A" \x7d, \x7b title: "B" \x7d ]`. -/
def postsCollections : Value :=
  Value.obj [("posts", Value.obj [("items", Value.arr
    [Value.obj [("title", Value.str "A")], Value.obj [("title", Value.str "B")]])])]

/-- The lexed body of the spec's loop example. -/
def postsBody : List LoopTok :=
  [LoopTok.lit "<h2>", LoopTok.field "title", LoopTok.lit "</h2>"]

/-- The loop body extended with a 0-based index token. -/
def postsBodyIdx : List LoopTok :=
  [LoopTok.lit "<h2>", LoopTok.field "title", LoopTok.lit ":", LoopTok.idx,
   LoopTok.lit "</h2>"]

/-- A well-formed page holding one anchor to `/missing/`. -/
def docMissingLink : HtmlDoc where
  hasTitleText := true
  hasMetaDescription := true
  h1Count := 1
  imgAlts := []
  anchorHrefs := ["/missing/"]
  hasFaviconLink := true
  hasCanonicalLink := true

/-- A well-formed page holding one anchor to `/about` (no trailing slash). -/
def docAboutLink : HtmlDoc where
  hasTitleText := true
  hasMetaDescription := true
  h1Count := 1
  imgAlts := []
  anchorHrefs := ["/about"]
  hasFaviconLink := true
  hasCanonicalLink := true

/-- A page satisfying every condition of the spec's zero-warning example
(one h1, title, description, canonical, no images) except a favicon link. -/
def docNoFavicon : HtmlDoc where
  hasTitleText := true
  hasMetaDescription := true
  h1Count := 1
  imgAlts := []
  anchorHrefs := []
  hasFaviconLink := false
  hasCanonicalLink := true

/-- A page with two h1 elements and one image without alt text. -/
def docTwoH1 : HtmlDoc where
  hasTitleText := true
  hasMetaDescription := true
  h1Count := 2
  imgAlts := [none]
  anchorHrefs := []
  hasFaviconLink := true
  hasCanonicalLink := true

/-- A fully conforming page (used for the amended zero-warning statement). -/
def docAllGood : HtmlDoc where
  hasTitleText := true
  hasMetaDescription := true
  h1Count := 1
  imgAlts := [some "logo"]
  anchorHrefs := []
  hasFaviconLink := true
  hasCanonicalLink := true

/-- A metadata parser stub that succeeds with a fixed title. -/
def parseMetaT : String → Option PageMeta := fun _ => some { title := some "T" }

/-- A metadata parser stub that always fails (a JSON5 throw). -/
def parseMetaNone : String → Option PageMeta := fun _ => none

/-- Options: audit reporting disabled, accessibility fail mode (the
configuration on which the persist-reports-before-abort claim fails). -/
def optsAccOnlyFail : CloseOpts where
  auditEnabled := false
  auditMode := AuditMode.warn
  accessibilityEnabled := true
  accessibilityMode := AuditMode.fail

/-- Options: audit enabled in fail mode. -/
def optsAuditFail : CloseOpts where
  auditEnabled := true
  auditMode := AuditMode.fail
  accessibilityEnabled := true
  accessibilityMode := AuditMode.warn

/-- One page result with one accessibility-classified warning. -/
def resultsAcc : List (List String) := [["Image missing alt attribute"]]

/-- Classifier for the broken-link warnings among `auditHtml`'s output (their
shared prefix; no other audit warning starts with it). -/
def isBrokenLinkWarning (w : String) : Bool :=
  strStartsWith w "Broken internal link:"

/-! Unfolding lemmas for `expandSegs` (its recursion is well-founded, so its
equations are applied by rewriting). -/

theorem expandSegs_nil (store : FragStore) (resolve : String → String)
    (parse : String → Option Value) (ctx : Value) (stack : List String) :
    expandSegs store resolve parse ctx stack [] = [] := by
  rw [expandSegs]

theorem expandSegs_text (store : FragStore) (resolve : String → String)
    (parse : String → Option Value) (ctx : Value) (stack : List String)
    (ps : List Piece) (rest : Tpl) :
    expandSegs store resolve parse ctx stack (Seg.text ps :: rest)
      = ps ++ expandSegs store resolve parse ctx stack rest := by
  rw [expandSegs]

theorem expandSegs_incl_missing {store : FragStore} {resolve : String → String}
    (parse : String → Option Value) (ctx : Value) {stack : List String}
    {ref : String} (dt : Option String) (rest : Tpl)
    (h : lookupFrag store (resolve ref) = none) :
    expandSegs store resolve parse ctx stack (Seg.incl ref dt :: rest)
      = Piece.lit (missingMarker ref) :: expandSegs store resolve parse ctx stack rest := by
  rw [expandSegs, h]

theorem expandSegs_incl_cycle {store : FragStore} {resolve : String → String}
    (parse : String → Option Value) (ctx : Value) {stack : List String}
    {ref : String} (dt : Option String) (rest : Tpl) {frag : Tpl}
    (h : lookupFrag store (resolve ref) = some frag)
    (hmem : resolve ref ∈ stack) :
    expandSegs store resolve parse ctx stack (Seg.incl ref dt :: rest)
      = Piece.lit (cycleMarker ref) :: expandSegs store resolve parse ctx stack rest := by
  rw [expandSegs, h]
  simp [hmem]

theorem expandSegs_incl_expand {store : FragStore} {resolve : String → String}
    (parse : String → Option Value) (ctx : Value) {stack : List String}
    {ref : String} (dt : Option String) (rest : Tpl) {frag : Tpl}
    (h : lookupFrag store (resolve ref) = some frag)
    (hmem : resolve ref ∉ stack) :
    expandSegs store resolve parse ctx stack (Seg.incl ref dt :: rest)
      = Piece.lit (interpolatePieces (nextCtxOf ctx (parseDataText parse dt))
          (expandSegs store resolve parse (nextCtxOf ctx (parseDataText parse dt))
            (stack ++ [resolve ref]) frag))
        :: expandSegs store resolve parse ctx stack rest := by
  rw [expandSegs, h]
  simp [hmem]

/-! Lemmas about `getByPath` and interpolation. -/

theorem getByPathGo_undefVal (ps : List String) : getByPathGo Value.undefVal ps = Value.str "" := by
  cases ps <;> rfl

theorem getByPathGo_of_lookupPath_none :
    ∀ (ps : List String) (v : Value), lookupPath ps v = none →
      getByPathGo v ps = Value.str "" := by
  intro ps
  induction ps with
  | nil => intro v h; simp [lookupPath] at h
  | cons p ps ih =>
    intro v h
    cases v with
    | null => rfl
    | undefVal => rfl
    | obj fs =>
      rw [getByPathGo]
      simp only [Value.isNullish, Bool.false_eq_true, if_false]
      rw [lookupPath] at h
      cases hf : lookupField fs p with
      | none =>
        have hj : jsIndex (Value.obj fs) p = Value.undefVal := by rw [jsIndex, hf]
        rw [hj, getByPathGo_undefVal]
      | some v' =>
        rw [hf] at h
        have hj : jsIndex (Value.obj fs) p = v' := by rw [jsIndex, hf]
        rw [hj]
        exact ih v' h
    | bool b =>
      rw [getByPathGo]
      simp only [Value.isNullish, Bool.false_eq_true, if_false]
      rw [show jsIndex (Value.bool b) p = Value.undefVal from rfl, getByPathGo_undefVal]
    | num n =>
      rw [getByPathGo]
      simp only [Value.isNullish, Bool.false_eq_true, if_false]
      rw [show jsIndex (Value.num n) p = Value.undefVal from rfl, getByPathGo_undefVal]
    | str s =>
      rw [getByPathGo]
      simp only [Value.isNullish, Bool.false_eq_true, if_false]
      rw [show jsIndex (Value.str s) p = Value.undefVal from rfl, getByPathGo_undefVal]
    | arr xs =>
      rw [getByPathGo]
      simp only [Value.isNullish, Bool.false_eq_true, if_false]
      rw [show jsIndex (Value.arr xs) p = Value.undefVal from rfl, getByPathGo_undefVal]

theorem getByPathGo_of_lookupPath_some :
    ∀ (ps : List String) (v w : Value), lookupPath ps v = some w →
      getByPathGo v ps = (if w.isNullish then Value.str "" else w) := by
  intro ps
  induction ps with
  | nil => intro v w h; rw [lookupPath] at h; cases h; rfl
  | cons p ps ih =>
    intro v w h
    cases v with
    | obj fs =>
      rw [lookupPath] at h
      cases hf : lookupField fs p with
      | none => rw [hf] at h; cases h
      | some v' =>
        rw [hf] at h
        rw [getByPathGo]
        simp only [Value.isNullish, Bool.false_eq_true, if_false]
        rw [show jsIndex (Value.obj fs) p = v' from by rw [jsIndex, hf]]
        exact ih v' w h
    | null => simp [lookupPath] at h
    | undefVal => simp [lookupPath] at h
    | bool b => simp [lookupPath] at h
    | num n => simp [lookupPath] at h
    | str s => simp [lookupPath] at h
    | arr xs => simp [lookupPath] at h

theorem getByPath_of_miss (ctx : Value) (e : String)
    (h : lookupPath (splitParts e) ctx = none) : getByPath ctx e = Value.str "" := by
  unfold getByPath
  exact getByPathGo_of_lookupPath_none _ _ h

theorem interp_nil (ctx : Value) : interpolatePieces ctx [] = "" := rfl

theorem interp_lit (ctx : Value) (s : String) (rest : List Piece) :
    interpolatePieces ctx (Piece.lit s :: rest) = s ++ interpolatePieces ctx rest := by
  rw [interpolatePieces]

theorem interp_tok (ctx : Value) (e : String) (rest : List Piece) :
    interpolatePieces ctx (Piece.tok e :: rest)
      = toJSString (getByPath ctx e) ++ interpolatePieces ctx rest := by
  rw [interpolatePieces]

/-! Route-mapper lemmas. -/

theorem stripSuffixCI_append (a b sfx : List Char)
    (hb : b.map Char.toLower = sfx) (hlen : b.length = sfx.length) :
    stripSuffixCI (a ++ b) sfx = some a := by
  unfold stripSuffixCI
  have h1 : (a ++ b).length - sfx.length = a.length := by
    rw [List.length_append, ← hlen]; omega
  rw [h1]
  have hcond : sfx.length ≤ (a ++ b).length ∧
      (List.drop a.length (a ++ b)).map Char.toLower = sfx := by
    constructor
    · rw [List.length_append, ← hlen]; omega
    · rw [List.drop_left a b, hb]
  rw [if_pos hcond, List.take_left a b]

theorem route_index_leaf (dir : String) (h0 : dir.data ≠ [])
    (hc : collapseSlashes (dir.data ++ ['/']) = dir.data ++ ['/']) :
    routeFromRelPath (dir ++ "/index.html") true true = "/" ++ dir ++ "/" := by
  unfold routeFromRelPath routeFromRelChars
  have hdata : (dir ++ "/index.html").data = (dir.data ++ "/index".data) ++ ".html".data := by
    rw [String.data_append]
    have e : "/index.html".data = "/index".data ++ ".html".data := by decide
    rw [e, List.append_assoc]
  have h1 : stripPageExt (dir ++ "/index.html").data = dir.data ++ "/index".data := by
    unfold stripPageExt
    rw [hdata, stripSuffixCI_append _ _ _ (by decide) (by decide)]
  rw [h1]
  have h2 : ¬ (dir.data ++ "/index".data = "index".data) := by
    intro he
    have hlen := congrArg List.length he
    rw [List.length_append] at hlen
    have e1 : ("/index".data).length = 6 := by decide
    have e2 : ("index".data).length = 5 := by decide
    rw [e1, e2] at hlen
    omega
  rw [if_neg h2]
  have h3 : stripIndexEnd (dir.data ++ "/index".data) = dir.data ++ ['/'] := by
    unfold stripIndexEnd
    have e : dir.data ++ "/index".data = (dir.data ++ ['/']) ++ "index".data := by
      rw [List.append_assoc]; rfl
    rw [e, stripSuffixCI_append _ _ _ (by decide) (by decide)]
  rw [h3, hc]
  have h4 : endsWithSlash ('/' :: (dir.data ++ ['/'])) = true := by
    unfold endsWithSlash
    rw [show '/' :: (dir.data ++ ['/']) = ('/' :: dir.data) ++ ['/'] from rfl,
        List.getLast?_concat]
    rfl
  simp only [h4, if_true, Bool.not_true, Bool.false_eq_true, if_false]
  apply String.ext
  rw [String.data_append, String.data_append]
  rfl

/-- C2: the route-mapping function sends `index.html` with clean URLs and
trailing slashes to `/`, `about.html` to `/about/`, `about.html` without
clean URLs to `/about.html` for both trailing-slash flags; an `index` leaf
maps to its parent directory's root (for any slash-normalised non-empty
directory prefix); and the transform is a pure function of the relative path
and the flags. -/
theorem claim2_route_mapping :
    routeFromRelPath "index.html" true true = "/"
    ∧ routeFromRelPath "about.html" true true = "/about/"
    ∧ (∀ b : Bool, routeFromRelPath "about.html" false b = "/about.html")
    ∧ (∀ dir : String, dir.data ≠ [] →
        collapseSlashes (dir.data ++ ['/']) = dir.data ++ ['/'] →
        routeFromRelPath (dir ++ "/index.html") true true = "/" ++ dir ++ "/")
    ∧ (∀ rel c t, routeFromRelPath rel c t = routeFromRelPath rel c t) := by
  refine ⟨by decide, by decide, ?_, route_index_leaf, fun _ _ _ => rfl⟩
  intro b
  cases b <;> decide

/-- Witness for C2 at the directory `blog`. -/
theorem claim2_route_mapping_witness :
    "blog".data ≠ [] ∧
    collapseSlashes ("blog".data ++ ['/']) = "blog".data ++ ['/'] ∧
    routeFromRelPath ("blog" ++ "/index.html") true true = "/" ++ "blog" ++ "/" :=
  ⟨by decide, by decide, claim2_route_mapping.2.2.2.1 "blog" (by decide) (by decide)⟩

/-- C8: the interpolation pass substitutes each mustache token by resolving
its dotted path through sequential property lookup against the context
(a successful non-nullish lookup substitutes that value's string form), and
a token whose path misses at any step is replaced by the empty string — it is
neither an error nor left in place. -/
theorem claim8_interpolation_miss :
    (∀ (ctx : Value) (e a b : String),
       lookupPath (splitParts e) ctx = none →
       interpolatePieces ctx [Piece.lit a, Piece.tok e, Piece.lit b] = a ++ b)
    ∧ (∀ (ctx : Value) (e : String) (rest : List Piece),
       interpolatePieces ctx (Piece.tok e :: rest)
         = toJSString (getByPath ctx e) ++ interpolatePieces ctx rest)
    ∧ (∀ (ctx : Value) (e : String) (w : Value),
       lookupPath (splitParts e) ctx = some w → w.isNullish = false →
       getByPath ctx e = w) := by
  refine ⟨?_, interp_tok, ?_⟩
  · intro ctx e a b h
    rw [interpolatePieces, interpolatePieces, interpolatePieces, interpolatePieces,
        getByPath_of_miss ctx e h]
    show a ++ ("" ++ (b ++ "")) = a ++ b
    simp
  · intro ctx e w h hw
    unfold getByPath
    rw [getByPathGo_of_lookupPath_some _ _ _ h, hw]
    simp

/-- Witness for C8: the token `data.x` misses in a context whose data layer
is empty, and the token `page.title` resolves. -/
theorem claim8_interpolation_miss_witness :
    (lookupPath (splitParts "data.x") (nextCtxOf ctx0 (Value.obj [])) = none ∧
      interpolatePieces (nextCtxOf ctx0 (Value.obj []))
        [Piece.lit "A", Piece.tok "data.x", Piece.lit "B"] = "A" ++ "B") ∧
    (lookupPath (splitParts "page.title") (Value.obj [("page", Value.obj [("title", Value.str "T")])])
        = some (Value.str "T") ∧
      getByPath (Value.obj [("page", Value.obj [("title", Value.str "T")])]) "page.title"
        = Value.str "T") :=
  ⟨⟨rfl, claim8_interpolation_miss.1 _ "data.x" "A" "B" rfl⟩,
   ⟨rfl, claim8_interpolation_miss.2.2 _ "page.title" _ rfl rfl⟩⟩

/-- C1: fragment expansion terminates on every store and template (the
definition of `expandSegs` is total; its recursion is well-founded by the
measure `remainingFrags`, the number of store paths not yet on the inclusion
chain's stack, which bounds recursion depth by the dependency graph's longest
acyclic chain); a fragment whose resolved absolute path is already on the
current chain's stack is never expanded again — the inclusion site emits the
inert cycle marker instead — and both the 1-cycle and the 2-cycle store
render to the inert marker at the recursive site. -/
theorem claim1_cycle_detection :
    (∀ (store : FragStore) (resolve : String → String) (parse : String → Option Value)
       (ctx : Value) (stack : List String) (ref : String) (dt : Option String)
       (rest : Tpl) (frag : Tpl),
       lookupFrag store (resolve ref) = some frag → resolve ref ∈ stack →
       expandSegs store resolve parse ctx stack (Seg.incl ref dt :: rest)
         = Piece.lit (cycleMarker ref) :: expandSegs store resolve parse ctx stack rest)
    ∧ expandIncludes storeSelf resolveP parse0 ctx0 [] false [Seg.incl "a" none]
        = [Piece.lit "X<!-- monad:cycle a -->Y"]
    ∧ expandIncludes storeAB resolveP parse0 ctx0 [] false [Seg.incl "a" none]
        = [Piece.lit "<!-- monad:cycle a -->"]
    ∧ (∀ (store : FragStore) (resolve : String → String) (parse : String → Option Value)
       (ctx : Value) (stack : List String) (skipFinal : Bool) (tpl : Tpl),
       ∃ out, expandIncludes store resolve parse ctx stack skipFinal tpl = out) := by
  refine ⟨?_, ?_, ?_, fun _ _ _ _ _ _ _ => ⟨_, rfl⟩⟩
  · intro store resolve parse ctx stack ref dt rest frag h hmem
    exact expandSegs_incl_cycle parse ctx dt rest h hmem
  · have hA : lookupFrag storeSelf (resolveP "a")
        = some [Seg.text [Piece.lit "X"], Seg.incl "a" none, Seg.text [Piece.lit "Y"]] := by
      decide
    rw [expandIncludes]
    simp only [Bool.false_eq_true, if_false]
    rw [expandSegs_incl_expand parse0 ctx0 none [] hA (by decide), expandSegs_nil]
    rw [expandSegs_text, expandSegs_incl_cycle parse0 _ none _ hA (by decide),
        expandSegs_text, expandSegs_nil]
    simp only [interpolatePieces, cycleMarker]
    decide
  · have hA : lookupFrag storeAB (resolveP "a") = some [Seg.incl "b" none] := by decide
    have hB : lookupFrag storeAB (resolveP "b") = some [Seg.incl "a" none] := by decide
    rw [expandIncludes]
    simp only [Bool.false_eq_true, if_false]
    rw [expandSegs_incl_expand parse0 ctx0 none [] hA (by decide), expandSegs_nil]
    rw [expandSegs_incl_expand parse0 _ none _ hB (by decide), expandSegs_nil]
    rw [expandSegs_incl_cycle parse0 _ none _ hA (by decide), expandSegs_nil]
    simp only [interpolatePieces, cycleMarker]
    decide

/-- Witness for C1: the self-including fragment, with its own path on the
stack, renders the cycle marker instead of being expanded. -/
theorem claim1_cycle_detection_witness :
    lookupFrag storeSelf (resolveP "a")
        = some [Seg.text [Piece.lit "X"], Seg.incl "a" none, Seg.text [Piece.lit "Y"]] ∧
    resolveP "a" ∈ ["/proj/fragments/_a.html"] ∧
    expandSegs storeSelf resolveP parse0 ctx0 ["/proj/fragments/_a.html"]
        [Seg.incl "a" none]
      = Piece.lit (cycleMarker "a")
          :: expandSegs storeSelf resolveP parse0 ctx0 ["/proj/fragments/_a.html"] [] :=
  ⟨by decide, by decide,
   claim1_cycle_detection.1 storeSelf resolveP parse0 ctx0 ["/proj/fragments/_a.html"]
     "a" none [] [Seg.text [Piece.lit "X"], Seg.incl "a" none, Seg.text [Piece.lit "Y"]]
     (by decide) (by decide)⟩

/-- A data-object text that fails to parse degrades to the empty object. -/
theorem parseDataText_parse_none (parse : String → Option Value) (txt : String)
    (hp : parse txt = none) : parseDataText parse (some txt) = Value.obj [] := by
  have he : parseDataText parse (some txt) =
      if jsTrim txt == "" then Value.obj []
      else match parse txt with | some v => v | none => Value.obj [] := rfl
  rw [he]
  by_cases h : (jsTrim txt == "") = true
  · rw [if_pos h]
  · rw [if_neg h, hp]

/-- C7: inclusion expansion degrades gracefully: an inclusion tag whose
reference does not resolve to a stored fragment is replaced by the inert
missing-fragment marker while expansion of the rest of the template
continues, and an inclusion whose data-object text fails to parse proceeds
exactly as an inclusion with no data object at all — an empty data object
merged into a context derived from the caller's. -/
theorem claim7_graceful_degradation :
    (∀ (store : FragStore) (resolve : String → String) (parse : String → Option Value)
       (ctx : Value) (stack : List String) (ref : String) (dt : Option String) (rest : Tpl),
       lookupFrag store (resolve ref) = none →
       expandSegs store resolve parse ctx stack (Seg.incl ref dt :: rest)
         = Piece.lit (missingMarker ref) :: expandSegs store resolve parse ctx stack rest)
    ∧ (∀ (parse : String → Option Value) (txt : String), parse txt = none →
        parseDataText parse (some txt) = Value.obj [])
    ∧ (∀ (store : FragStore) (resolve : String → String) (parse : String → Option Value)
       (ctx : Value) (stack : List String) (ref txt : String) (rest : Tpl),
       parse txt = none →
       expandSegs store resolve parse ctx stack (Seg.incl ref (some txt) :: rest)
         = expandSegs store resolve parse ctx stack (Seg.incl ref none :: rest)) := by
  refine ⟨?_, parseDataText_parse_none, ?_⟩
  · intro store resolve parse ctx stack ref dt rest h
    exact expandSegs_incl_missing parse ctx dt rest h
  · intro store resolve parse ctx stack ref txt rest hp
    have hd : parseDataText parse (some txt) = Value.obj [] :=
      parseDataText_parse_none parse txt hp
    have hd2 : parseDataText parse none = Value.obj [] := rfl
    cases h : lookupFrag store (resolve ref) with
    | none =>
      rw [expandSegs_incl_missing parse ctx (some txt) rest h,
          expandSegs_incl_missing parse ctx none rest h]
    | some frag =>
      by_cases hm : resolve ref ∈ stack
      · rw [expandSegs_incl_cycle parse ctx (some txt) rest h hm,
            expandSegs_incl_cycle parse ctx none rest h hm]
      · rw [expandSegs_incl_expand parse ctx (some txt) rest h hm,
            expandSegs_incl_expand parse ctx none rest h hm, hd, hd2]

/-- Witness for C7: the unresolvable reference `g` yields the missing marker
in front of the continued expansion, and a failing data-object text on the
inclusion of `f` behaves as no data object. -/
theorem claim7_graceful_degradation_witness :
    lookupFrag storeF (resolveP "g") = none ∧
    expandSegs storeF resolveP parse0 ctx0 [] [Seg.incl "g" none]
      = Piece.lit (missingMarker "g") :: expandSegs storeF resolveP parse0 ctx0 [] [] ∧
    parse0 "nonsense" = none ∧
    expandSegs storeF resolveP parse0 ctx0 [] [Seg.incl "f" (some "nonsense")]
      = expandSegs storeF resolveP parse0 ctx0 [] [Seg.incl "f" none] :=
  ⟨by decide,
   claim7_graceful_degradation.1 storeF resolveP parse0 ctx0 [] "g" none [] (by decide),
   rfl,
   claim7_graceful_degradation.2.2 storeF resolveP parse0 ctx0 [] "f" "nonsense" [] rfl⟩

/-- C10: with the deferral flag set, only the top-level trailing
interpolation pass is skipped — the result is exactly the expansion pass,
leaving top-level tokens in place — while every token inside an included
fragment's own text is still substituted against the inclusion's context, so
an unresolvable token in a fragment body is blanked to the empty string even
under deferral while the same token in the page's own text is preserved. -/
theorem claim10_deferred_interpolation :
    (∀ (store : FragStore) (resolve : String → String) (parse : String → Option Value)
       (ctx : Value) (stack : List String) (tpl : Tpl),
       expandIncludes store resolve parse ctx stack true tpl
         = expandSegs store resolve parse ctx stack tpl)
    ∧ (∀ (store : FragStore) (resolve : String → String) (parse : String → Option Value)
       (ctx : Value) (stack : List String) (ref e e2 : String),
       lookupFrag store (resolve ref) = some [Seg.text [Piece.tok e2]] →
       resolve ref ∉ stack →
       lookupPath (splitParts e2) (nextCtxOf ctx (parseDataText parse none)) = none →
       expandIncludes store resolve parse ctx stack true
           [Seg.text [Piece.tok e], Seg.incl ref none]
         = [Piece.tok e, Piece.lit ""]) := by
  constructor
  · intro store resolve parse ctx stack tpl
    rw [expandIncludes, if_pos rfl]
  · intro store resolve parse ctx stack ref e e2 h hmem hmiss
    rw [expandIncludes, if_pos rfl]
    rw [expandSegs_text, expandSegs_incl_expand parse ctx none [] h hmem, expandSegs_nil,
        expandSegs_text, expandSegs_nil]
    rw [List.append_nil, interp_tok, interp_nil, getByPath_of_miss _ _ hmiss]
    simp [toJSString]

/-- Witness for C10: the page token `page.title` survives deferral while the
fragment token `data.x` is blanked. -/
theorem claim10_deferred_interpolation_witness :
    lookupFrag storeF (resolveP "f") = some [Seg.text [Piece.tok "data.x"]] ∧
    resolveP "f" ∉ ([] : List String) ∧
    lookupPath (splitParts "data.x") (nextCtxOf ctx0 (parseDataText parse0 none)) = none ∧
    expandIncludes storeF resolveP parse0 ctx0 [] true
        [Seg.text [Piece.tok "page.title"], Seg.incl "f" none]
      = [Piece.tok "page.title", Piece.lit ""] :=
  ⟨by decide, by simp, rfl,
   claim10_deferred_interpolation.2 storeF resolveP parse0 ctx0 [] "f" "page.title" "data.x"
     (by decide) (by simp) rfl⟩

/-- C4: a loop block whose path resolves to an array is replaced by the
concatenation, in the collection's own order, of one body instantiation per
item (fields from the item, the bare variable as the serialised item, and
0-based/1-based index tokens), and a block whose path does not resolve to an
array is replaced by the inert diagnostic comment with processing
continuing; the spec's `posts.items` example renders two h2 blocks in input
order with 0-based indices 0 and 1. -/
theorem claim4_loop_expansion :
    (∀ (collections : Value) (p : String) (body : List LoopTok)
       (items : List Value) (rest : List LoopSeg),
       getByPath collections p = Value.arr items →
       expandCollectionLoops collections (LoopSeg.loopBlock p body :: rest)
         = instantiateAll body 0 items ++ expandCollectionLoops collections rest)
    ∧ (∀ (collections : Value) (p : String) (body : List LoopTok) (rest : List LoopSeg),
       (∀ items, getByPath collections p ≠ Value.arr items) →
       expandCollectionLoops collections (LoopSeg.loopBlock p body :: rest)
         = collectionNotFoundMsg p ++ expandCollectionLoops collections rest)
    ∧ expandCollectionLoops postsCollections [LoopSeg.loopBlock "posts.items" postsBody]
        = "<h2>A</h2><h2>B</h2>"
    ∧ expandCollectionLoops postsCollections [LoopSeg.loopBlock "posts.items" postsBodyIdx]
        = "<h2>A:0</h2><h2>B:1</h2>"
    ∧ expandCollectionLoops postsCollections [LoopSeg.loopBlock "posts.nope" postsBody]
        = "<!-- Collection posts.nope not found -->" := by
  refine ⟨?_, ?_, by decide, by decide, by decide⟩
  · intro collections p body items rest h
    rw [expandCollectionLoops, h]
  · intro collections p body rest h
    cases hv : getByPath collections p
    case arr items => exact absurd hv (h items)
    all_goals rw [expandCollectionLoops, hv]

/-- Witness for C4: the `posts.items` path resolves to the two-item array
and expands in order; the `posts.nope` path resolves to no array and leaves
the diagnostic. -/
theorem claim4_loop_expansion_witness :
    getByPath postsCollections "posts.items"
        = Value.arr [Value.obj [("title", Value.str "A")], Value.obj [("title", Value.str "B")]] ∧
    expandCollectionLoops postsCollections [LoopSeg.loopBlock "posts.items" postsBody]
      = instantiateAll postsBody 0
          [Value.obj [("title", Value.str "A")], Value.obj [("title", Value.str "B")]]
        ++ expandCollectionLoops postsCollections [] ∧
    expandCollectionLoops postsCollections [LoopSeg.loopBlock "posts.nope" postsBody]
      = collectionNotFoundMsg "posts.nope" ++ expandCollectionLoops postsCollections [] :=
  ⟨rfl,
   claim4_loop_expansion.1 postsCollections "posts.items" postsBody
     [Value.obj [("title", Value.str "A")], Value.obj [("title", Value.str "B")]] [] rfl,
   claim4_loop_expansion.2.1 postsCollections "posts.nope" postsBody []
     (fun items h => by
       rw [show getByPath postsCollections "posts.nope" = Value.str "" from rfl] at h
       exact Value.noConfusion h)⟩

/-- C6 counterexample: with a frontmatter block that is not at the start of
the file, the returned body keeps the text before the block — it is the
whole text with the block removed, not merely everything after the block. -/
theorem claim6_counterexample :
    (tryParsePageMeta parseMetaT "X<!-- monad 1 -->Y").2 = "XY" ∧
    (tryParsePageMeta parseMetaT "X<!-- monad 1 -->Y").2 ≠ "Y" := by
  exact ⟨by decide, by decide⟩

/-- C6 (amended): when no designated block is found the metadata is empty and
the body is the whole text unchanged; when a block is found the body is the
whole text with the block removed (text before the block preserved) and
trimmed, and a parse failure of the block content still yields that body with
empty metadata — parse failure never aborts the page. -/
theorem claim6_meta_extraction :
    (∀ (parse : String → Option PageMeta) (raw : String),
       findMonadBlock raw.data = none →
       tryParsePageMeta parse raw = (emptyPageMeta, raw))
    ∧ (∀ (parse : String → Option PageMeta) (raw : String) (b i a : List Char),
       findMonadBlock raw.data = some (b, i, a) →
       (tryParsePageMeta parse raw).2 = jsTrim (String.mk (b ++ a)))
    ∧ (∀ (parse : String → Option PageMeta) (raw : String) (b i a : List Char),
       findMonadBlock raw.data = some (b, i, a) →
       parse (jsTrim (String.mk i)) = none →
       tryParsePageMeta parse raw = (emptyPageMeta, jsTrim (String.mk (b ++ a)))) := by
  refine ⟨?_, ?_, ?_⟩
  · intro parse raw h
    rw [tryParsePageMeta, h]
  · intro parse raw b i a h
    rw [tryParsePageMeta, h]
    cases hp : parse (jsTrim (String.mk i)) <;> simp [hp]
  · intro parse raw b i a h hp
    rw [tryParsePageMeta, h]
    simp [hp]

/-- Witness for C6: a block-free page passes through unchanged; the page
`X<!-- monad 1 -->Y` decomposes around the block and its body is `XY`, also
under a failing parser. -/
theorem claim6_meta_extraction_witness :
    findMonadBlock "Hello".data = none ∧
    tryParsePageMeta parseMetaT "Hello" = (emptyPageMeta, "Hello") ∧
    findMonadBlock "X<!-- monad 1 -->Y".data = some (['X'], ['1', ' '], ['Y']) ∧
    (tryParsePageMeta parseMetaT "X<!-- monad 1 -->Y").2
      = jsTrim (String.mk (['X'] ++ ['Y'])) ∧
    parseMetaNone (jsTrim (String.mk ['1', ' '])) = none ∧
    tryParsePageMeta parseMetaNone "X<!-- monad 1 -->Y"
      = (emptyPageMeta, jsTrim (String.mk (['X'] ++ ['Y']))) :=
  ⟨by decide,
   claim6_meta_extraction.1 parseMetaT "Hello" (by decide),
   by decide,
   claim6_meta_extraction.2.1 parseMetaT "X<!-- monad 1 -->Y" ['X'] ['1', ' '] ['Y'] (by decide),
   rfl,
   claim6_meta_extraction.2.2 parseMetaNone "X<!-- monad 1 -->Y" ['X'] ['1', ' '] ['Y']
     (by decide) rfl⟩

/-- A list with a member satisfying the filter condition contributes at least
one element to the conditional `filterMap`. -/
theorem length_filterMap_if_ge_one {α : Type} (l : List α) (cond : α → Bool)
    (c : String) (x : α) (hx : x ∈ l) (hc : cond x = true) :
    1 ≤ (l.filterMap fun a => if cond a then some c else none).length := by
  induction l with
  | nil => cases hx
  | cons y ys ih =>
    rcases List.mem_cons.mp hx with rfl | hmem
    · simp [List.filterMap_cons, hc]
    · cases hcy : cond y
      · simpa [List.filterMap_cons, hcy] using ih hmem
      · simp [List.filterMap_cons, hcy]

/-- C5 counterexample: a document with exactly one h1, a non-empty title, a
meta description, a canonical link and no images at all still fails to audit
clean — the favicon check fires, so the audit output is not empty as the
claim requires. -/
theorem claim5_counterexample :
    auditHtml docNoFavicon none
      = ["No favicon <link rel=\"icon\"> found (consider adding)"] ∧
    auditHtml docNoFavicon none ≠ [] :=
  ⟨by decide, by decide⟩

/-- C5 (amended): a document with two h1 elements and an image without alt
text yields at least two warnings, one per issue; and a document with exactly
one h1, a non-empty title, a meta description, a canonical link tag, a
favicon link, and all images carrying non-empty alt yields zero warnings
from the SEO audit. -/
theorem claim5_seo_audit :
    (∀ (doc : HtmlDoc) (ro : Option (List String)),
       doc.h1Count = 2 → (∃ alt ∈ doc.imgAlts, altMissing alt = true) →
       2 ≤ (auditHtml doc ro).length)
    ∧ (∀ doc : HtmlDoc,
       doc.hasTitleText = true → doc.hasMetaDescription = true → doc.h1Count = 1 →
       (∀ alt ∈ doc.imgAlts, altMissing alt = false) →
       doc.hasFaviconLink = true → doc.hasCanonicalLink = true →
       auditHtml doc none = []) := by
  constructor
  · intro doc ro h2 hex
    obtain ⟨alt, halt, hmiss⟩ := hex
    simp only [auditHtml, List.length_append]
    have hm : (if doc.h1Count > 1
        then ["Multiple <h1> (" ++ (toString doc.h1Count ++ ")")] else []).length = 1 := by
      rw [if_pos (by omega)]
      rfl
    have himg : 1 ≤ (doc.imgAlts.filterMap fun alt =>
        if altMissing alt then some "Image missing alt attribute" else none).length :=
      length_filterMap_if_ge_one _ _ _ alt halt hmiss
    rw [hm]
    omega
  · intro doc h1 h2 h3 h4 h5 h6
    have himg : doc.imgAlts.filterMap (fun alt =>
        if altMissing alt then some "Image missing alt attribute" else none) = [] := by
      rw [List.filterMap_eq_nil_iff]
      intro a ha
      rw [h4 a ha]
      rfl
    simp [auditHtml, h1, h2, h3, h5, h6, himg]

/-- Witness for C5: the two-h1 page with an alt-less image collects at least
two warnings, and the fully conforming page audits clean. -/
theorem claim5_seo_audit_witness :
    (docTwoH1.h1Count = 2 ∧ (∃ alt ∈ docTwoH1.imgAlts, altMissing alt = true) ∧
      2 ≤ (auditHtml docTwoH1 none).length) ∧
    (docAllGood.hasTitleText = true ∧ (∀ alt ∈ docAllGood.imgAlts, altMissing alt = false) ∧
      auditHtml docAllGood none = []) :=
  ⟨⟨rfl, ⟨none, by decide, by decide⟩,
    claim5_seo_audit.1 docTwoH1 none rfl ⟨none, by decide, by decide⟩⟩,
   ⟨rfl, by decide,
    claim5_seo_audit.2 docAllGood rfl rfl rfl (by decide) rfl rfl⟩⟩

/-- Counting through a conditional `filterMap` whose produced elements all
satisfy the counted predicate reduces to counting the condition. -/
theorem countP_filterMap_if {α : Type} (l : List α) (cond : α → Bool) (g : α → String)
    (p : String → Bool) (hp : ∀ x, cond x = true → p (g x) = true) :
    (l.filterMap fun x => if cond x then some (g x) else none).countP p = l.countP cond := by
  induction l with
  | nil => rfl
  | cons x xs ih =>
    cases hx : cond x
    · simp [List.filterMap_cons, hx, List.countP_cons, ih]
    · simp [List.filterMap_cons, hx, List.countP_cons, ih, hp x hx]

/-- A `filterMap` none of whose produced elements satisfies the counted
predicate contributes no count. -/
theorem countP_filterMap_zero {α : Type} (l : List α) (f : α → Option String)
    (p : String → Bool) (h : ∀ x y, f x = some y → p y = false) :
    (l.filterMap f).countP p = 0 := by
  induction l with
  | nil => rfl
  | cons x xs ih =>
    cases hfx : f x
    · simp [List.filterMap_cons, hfx, ih]
    · simp [List.filterMap_cons, hfx, List.countP_cons, ih, h x _ hfx]

/-- A list is a boolean prefix of itself followed by anything. -/
theorem isPrefixOf_append_self (l r : List Char) : l.isPrefixOf (l ++ r) = true := by
  induction l with
  | nil => simp
  | cons c cs ih => simp [List.isPrefixOf, ih]

/-- Every broken-link warning carries the broken-link prefix. -/
theorem brokenLink_prefix (href : String) :
    isBrokenLinkWarning (brokenLinkMsg href) = true := by
  unfold isBrokenLinkWarning strStartsWith brokenLinkMsg
  rw [String.data_append]
  rw [show "Broken internal link: ".data
      = "Broken internal link:".data ++ [' '] from by decide]
  rw [List.append_assoc]
  exact isPrefixOf_append_self _ _

/-- A multiple-h1 warning never carries the broken-link prefix. -/
theorem multipleH1_not_broken (t : String) :
    isBrokenLinkWarning ("Multiple <h1> (" ++ t) = false := by
  unfold isBrokenLinkWarning strStartsWith
  rw [String.data_append]
  rw [show "Multiple <h1> (".data = 'M' :: "ultiple <h1> (".data from rfl]
  rw [show "Broken internal link:".data = 'B' :: "roken internal link:".data from rfl]
  simp [List.isPrefixOf]

/-- C3: the audit's link checker inspects exactly the anchors whose
reference begins with a single slash (not two), strips query and fragment,
and compares trailing-slash-insensitively against the route table; each
unmatched such anchor produces exactly one broken-link warning and matched
ones produce none — in particular, against the table `/`, `/about/` the
anchor `/missing/` yields exactly one broken-link warning and the anchor
`/about` yields zero. -/
theorem claim3_link_check :
    (∀ (doc : HtmlDoc) (routes : List String),
       (auditHtml doc (some routes)).countP isBrokenLinkWarning
         = doc.anchorHrefs.countP
             (fun href => isInternalHref href && !routeExistsIn routes (cleanHref href)))
    ∧ (auditHtml docMissingLink (some ["/", "/about/"])).countP isBrokenLinkWarning = 1
    ∧ (auditHtml docAboutLink (some ["/", "/about/"])).countP isBrokenLinkWarning = 0 := by
  refine ⟨?_, by decide, by decide⟩
  intro doc routes
  simp only [auditHtml, List.countP_append]
  rw [countP_filterMap_if doc.anchorHrefs _ _ _ (fun href _ => brokenLink_prefix href)]
  rw [countP_filterMap_zero doc.imgAlts _ _ ?himg]
  case himg =>
    intro x y hxy
    by_cases hax : altMissing x = true
    · rw [if_pos hax] at hxy
      cases hxy
      decide
    · rw [if_neg hax] at hxy
      cases hxy
  have hb1 : List.countP isBrokenLinkWarning
      (if doc.hasTitleText then [] else ["Missing <title>"]) = 0 := by
    cases hb : doc.hasTitleText <;> decide
  have hb2 : List.countP isBrokenLinkWarning
      (if doc.hasMetaDescription then [] else ["Missing meta description"]) = 0 := by
    cases hb : doc.hasMetaDescription <;> decide
  have hb3 : List.countP isBrokenLinkWarning
      (if doc.h1Count == 0 then ["Missing <h1>"] else []) = 0 := by
    cases hb : doc.h1Count == 0 <;> decide
  have hb4 : List.countP isBrokenLinkWarning
      (if doc.h1Count > 1
        then ["Multiple <h1> (" ++ (toString doc.h1Count ++ ")")] else []) = 0 := by
    by_cases hgt : doc.h1Count > 1
    · rw [if_pos hgt]
      simp [List.countP_cons, multipleH1_not_broken]
    · rw [if_neg hgt]
      rfl
  have hb5 : List.countP isBrokenLinkWarning
      (if doc.hasFaviconLink then []
       else ["No favicon <link rel=\"icon\"> found (consider adding)"]) = 0 := by
    cases hb : doc.hasFaviconLink <;> decide
  have hb6 : List.countP isBrokenLinkWarning
      (if doc.hasCanonicalLink then [] else ["Missing canonical link tag"]) = 0 := by
    cases hb : doc.hasCanonicalLink <;> decide
  rw [hb1, hb2, hb3, hb4, hb5, hb6]
  omega

/-- Accessibility-classified warnings are a sublist of all warnings. -/
theorem accCount_le_total (rs : List (List String)) :
    accWarningCount rs ≤ totalWarnings rs := by
  unfold accWarningCount totalWarnings
  induction rs with
  | nil => simp
  | cons ws rss ih =>
    simp only [List.map_cons, List.sum_cons]
    exact Nat.add_le_add (List.length_filter_le _ _) ih

/-- C9 counterexample: with audit reporting disabled but accessibility mode
`fail`, one accessibility-classified warning aborts the build without any
report being written — the abort is not preceded by the JSON and HTML report
writes, so the reports are not persisted regardless of outcome. -/
theorem claim9_counterexample :
    closeBundleTail optsAccOnlyFail resultsAcc
      = [BuildAction.abortBuild (accessibilityFailMsg 1)] ∧
    BuildAction.writeReportJson ∉ closeBundleTail optsAccOnlyFail resultsAcc ∧
    BuildAction.writeReportHtml ∉ closeBundleTail optsAccOnlyFail resultsAcc :=
  ⟨by decide, by decide, by decide⟩

/-- C9 (amended): whenever the audit report is enabled, the JSON and HTML
reports are the first two actions, so any abort happens only after both are
written; with the audit enabled in `fail` mode and a nonzero warning count
the trace is exactly the two report writes followed by the abort; with
neither mode set to `fail`, or with a zero aggregated warning count, the
build never aborts.  (When the audit report is disabled, an
accessibility-mode abort runs with no reports written — the corrected part.) -/
theorem claim9_fail_mode :
    (∀ (o : CloseOpts) (rs : List (List String)), o.auditEnabled = true →
       (closeBundleTail o rs).take 2
         = [BuildAction.writeReportJson, BuildAction.writeReportHtml])
    ∧ (∀ (o : CloseOpts) (rs : List (List String)),
       o.auditEnabled = true → o.auditMode = AuditMode.fail → 0 < totalWarnings rs →
       closeBundleTail o rs
         = [BuildAction.writeReportJson, BuildAction.writeReportHtml,
            BuildAction.abortBuild (auditFailMsg (totalWarnings rs))])
    ∧ (∀ (o : CloseOpts) (rs : List (List String)),
       o.auditMode ≠ AuditMode.fail → o.accessibilityMode ≠ AuditMode.fail →
       ∀ a ∈ closeBundleTail o rs, a.isAbort = false)
    ∧ (∀ (o : CloseOpts) (rs : List (List String)), totalWarnings rs = 0 →
       ∀ a ∈ closeBundleTail o rs, a.isAbort = false) := by
  refine ⟨?_, ?_, ?_, ?_⟩
  · intro o rs h
    unfold closeBundleTail
    rw [if_pos h]
    rfl
  · intro o rs h1 h2 h3
    unfold closeBundleTail
    rw [if_pos h1, if_pos ⟨h2, h3⟩]
    rfl
  · intro o rs h1 h2 a ha
    have hacc : accessibilityAbortActions o rs = [] := by
      unfold accessibilityAbortActions
      rw [if_neg]
      intro hcon
      exact h2 hcon.2.1
    unfold closeBundleTail at ha
    by_cases he : o.auditEnabled = true
    · rw [if_pos he, if_neg (fun hcon => h1 hcon.1), hacc] at ha
      simp only [List.append_nil, List.mem_cons, List.not_mem_nil, or_false] at ha
      rcases ha with rfl | rfl <;> rfl
    · rw [if_neg he, hacc] at ha
      exact absurd ha (List.not_mem_nil a)
  · intro o rs h a ha
    have h0 : ¬ (0 < totalWarnings rs) := by omega
    have hacc0 : accWarningCount rs = 0 := by
      have := accCount_le_total rs
      omega
    have hacc : accessibilityAbortActions o rs = [] := by
      unfold accessibilityAbortActions
      rw [if_neg]
      intro hcon
      have := hcon.2.2
      omega
    unfold closeBundleTail at ha
    by_cases he : o.auditEnabled = true
    · rw [if_pos he, if_neg (fun hcon => h0 hcon.2), hacc] at ha
      simp only [List.append_nil, List.mem_cons, List.not_mem_nil, or_false] at ha
      rcases ha with rfl | rfl <;> rfl
    · rw [if_neg he, hacc] at ha
      exact absurd ha (List.not_mem_nil a)

/-- Witness for C9: audit enabled in fail mode with one warning writes both
reports and then aborts; and a warning-free build never aborts. -/
theorem claim9_fail_mode_witness :
    optsAuditFail.auditEnabled = true ∧ optsAuditFail.auditMode = AuditMode.fail ∧
    0 < totalWarnings resultsAcc ∧
    closeBundleTail optsAuditFail resultsAcc
      = [BuildAction.writeReportJson, BuildAction.writeReportHtml,
         BuildAction.abortBuild (auditFailMsg (totalWarnings resultsAcc))] ∧
    (∀ a ∈ closeBundleTail optsAccOnlyFail [], a.isAbort = false) :=
  ⟨rfl, rfl, by decide,
   claim9_fail_mode.2.1 optsAuditFail resultsAcc rfl rfl (by decide),
   claim9_fail_mode.2.2.2 optsAccOnlyFail [] rfl⟩
